import Mathlib

/-!
Shallow embedding of the AI Tic-Tac-Toe game core:
the win/draw evaluator, the heuristic ("Medium") move selector, the
remote-assisted ("Hard"/"Trained") selectors with validation and fallback,
the commentary generator, the training-example retriever, and the game
orchestrator state held by the `App` component.

External effects (the Gemini service call, `Math.random`) are passed in as
explicit parameters: an `OracleResult` models the parsed outcome of the
remote call (including thrown errors), a `Nat` parameter models a
`Math.floor(Math.random() * n)` draw (taken modulo `n`, which is the
identity on every value the real generator can produce).
-/

namespace TicTacToe

/-- Player marks; `BoardState` cells are `Player | null` in the source. -/
inductive Player
  | X
  | O
deriving DecidableEq, Fintype, Repr

abbrev Cell := Option Player

/-- Board: array of 9 cells (`(Player | null)[]`); out-of-range reads give
`none`, matching JavaScript `undefined` falsiness. -/
abbrev Board := List Cell

/-- Modelled from the spec: the constant `WINNING_COMBINATIONS` lives in
`constants.ts`, which is not among the provided source files. Per the spec it
is the 8 fixed triples — 3 rows, then 3 columns, then the 2 diagonals — in
that stable enumeration order. -/
def WINNING_COMBINATIONS : List (Nat × Nat × Nat) :=
  [(0, 1, 2), (3, 4, 5), (6, 7, 8),
   (0, 3, 6), (1, 4, 7), (2, 5, 8),
   (0, 4, 8), (2, 4, 6)]

/-- Body of the winning-line scan shared verbatim by `checkGameStatus`
(App.tsx) and `checkWinner` (geminiService.ts):
`if (board[a] && board[a] === board[b] && board[a] === board[c])`. -/
def lineWinner (board : Board) (combo : Nat × Nat × Nat) :
    Option (Player × (Nat × Nat × Nat)) :=
  match board.getD combo.1 none with
  | none => none
  | some w =>
      if board.getD combo.2.1 none = some w ∧ board.getD combo.2.2 none = some w then
        some (w, combo)
      else
        none

/-- The `checkWinner` helper of geminiService.ts: first winning combination
in enumeration order, or `null`. -/
def checkWinner (board : Board) : Option (Player × (Nat × Nat × Nat)) :=
  WINNING_COMBINATIONS.findSome? (lineWinner board)

structure Scores where
  player : Nat
  ai : Nat
  draws : Nat
deriving DecidableEq, Repr

/-- The React state owned by the `App` component (presentation-only pieces
such as the difficulty modal and dark-mode flag are omitted; no claim
mentions them). -/
structure GameState where
  board : Board
  isPlayerTurn : Bool
  winnerInfo : Option (Player × (Nat × Nat × Nat))
  isDraw : Bool
  scores : Scores
  gamesPlayed : Nat
  aiCommentary : String
  isAiThinking : Bool
  moveHistory : List Nat
deriving DecidableEq, Repr

/-- The `checkGameStatus` callback of App.tsx as a state transformer: scan the
winning combinations and on a hit set `winnerInfo`, bump the matching score
and set the commentary, returning early; otherwise if every cell is non-null
set `isDraw`, bump the draw score and set the commentary; otherwise leave the
state as is. -/
def checkGameStatus (currentBoard : Board) (s : GameState) : GameState :=
  match WINNING_COMBINATIONS.findSome? (lineWinner currentBoard) with
  | some (w, combo) =>
      { s with
        winnerInfo := some (w, combo),
        scores :=
          if w = Player.X then
            { s.scores with player := s.scores.player + 1 }
          else
            { s.scores with ai := s.scores.ai + 1 },
        aiCommentary := if w = Player.X then "You got lucky..." else "Victory is mine!" }
  | none =>
      if currentBoard.all (fun cell => cell ≠ none) then
        { s with
          isDraw := true,
          scores := { s.scores with draws := s.scores.draws + 1 },
          aiCommentary := "A worthy opponent. It\x27s a draw!" }
      else
        s

/-- The `restartGame` callback of App.tsx. -/
def restartGame (s : GameState) : GameState :=
  { board := List.replicate 9 none,
    isPlayerTurn := true,
    winnerInfo := none,
    isDraw := false,
    scores := s.scores,
    gamesPlayed := s.gamesPlayed + 1,
    aiCommentary := "",
    isAiThinking := s.isAiThinking,
    moveHistory := [] }

/-- The `handleCellClick` handler of App.tsx:
`if (board[index] || winnerInfo || isDraw || !isPlayerTurn) return;`
then place an X, append to the history, yield the turn and evaluate. -/
def handleCellClick (index : Nat) (s : GameState) : GameState :=
  if s.board.getD index none ≠ none ∨ s.winnerInfo ≠ none ∨ s.isDraw = true ∨
      s.isPlayerTurn = false then
    s
  else
    let newBoard := s.board.set index (some Player.X)
    checkGameStatus newBoard
      { s with
        board := newBoard,
        moveHistory := s.moveHistory ++ [index],
        isPlayerTurn := false }

/-- Models `board.map((cell, index) => cell === null ? index : null)
.filter(i => i !== null)` of App.tsx: the indices (in increasing order) of the
cells that are null. -/
def availableCells (board : Board) : List Nat :=
  (List.range board.length).filter fun i => board.getD i none = none

/-- Loop body of `findWinningMove` (geminiService.ts) at index `i`: if the
cell is null, place `player` on a copy (`tempBoard`) and keep `i` when
`checkWinner` reports `player` as the winner. -/
def tryWinningMove (board : Board) (player : Player) (i : Nat) : Option Nat :=
  if board.getD i none = none then
    let tempBoard := board.set i (some player)
    match checkWinner tempBoard with
    | some (w, _) => if w = player then some i else none
    | none => none
  else
    none

/-- The `findWinningMove` helper of geminiService.ts: first index `i` in a
0..8 scan whose cell is empty and where placing `player` makes `checkWinner`
report `player` as the winner. -/
def findWinningMove (board : Board) (player : Player) : Option Nat :=
  (List.range 9).findSome? (tryWinningMove board player)

/-- The `getMediumAIMove` selector of geminiService.ts. The parameter `r`
models the `Math.random()` draw: the source indexes with
`Math.floor(Math.random() * len)`, a uniform value in `[0, len)`, embedded
here as `r % len` (the identity on every value the real draw produces). -/
def getMediumAIMove (board : Board) (r : Nat) : Nat :=
  match findWinningMove board Player.O with
  | some winningMove => winningMove
  | none =>
  match findWinningMove board Player.X with
  | some blockingMove => blockingMove
  | none =>
  if board.getD 4 none = none then 4
  else
    let availableCorners := [0, 2, 6, 8].filter fun i => board.getD i none = none
    if availableCorners.length > 0 then
      availableCorners.getD (r % availableCorners.length) 0
    else
      let availableSides := [1, 3, 5, 7].filter fun i => board.getD i none = none
      if availableSides.length > 0 then
        availableSides.getD (r % availableSides.length) 0
      else
        (availableCells board).getD 0 0

/-- Outcome of the remote Gemini call as seen by the validation code of
`getHardAIMove` / `getTrainedAIMove` after `JSON.parse(response.text).move`:
either a number field (any integer, in range or not), a response whose `move`
field is absent or not a number, or a raised error anywhere in the `try`
block (missing API key, transport failure, malformed JSON, ...). -/
inductive OracleResult
  | ok (move : Int)
  | notNumber
  | err
deriving DecidableEq, Repr

/-- The `getHardAIMove` selector of geminiService.ts: validate the oracle's
move (`typeof move === 'number' && move >= 0 && move <= 8 &&
board[move] === null`) and return it, otherwise — and on any caught error —
fall back to `getMediumAIMove(board)`. `moveHistory` only feeds the prompt. -/
def getHardAIMove (board : Board) (moveHistory : List Nat) (res : OracleResult)
    (r : Nat) : Nat :=
  let _ := moveHistory
  match res with
  | OracleResult.ok move =>
      if 0 ≤ move ∧ move ≤ 8 ∧ board.getD move.toNat none = none then
        move.toNat
      else
        getMediumAIMove board r
  | OracleResult.notNumber => getMediumAIMove board r
  | OracleResult.err => getMediumAIMove board r

/-- Training corpus entry from data/trainingData.ts: `{winner, moves}`. -/
structure GameSeq where
  winner : Player
  moves : List Nat
deriving DecidableEq, Repr

/-- The static `winningGameSequences` corpus of data/trainingData.ts. -/
def winningGameSequences : List GameSeq :=
  [⟨Player.O, [0, 4, 1, 2, 3, 6]⟩,
   ⟨Player.O, [8, 4, 2, 6, 5]⟩,
   ⟨Player.O, [0, 1, 4, 2, 8]⟩,
   ⟨Player.O, [2, 4, 5, 3, 8]⟩,
   ⟨Player.O, [6, 4, 7, 1, 8]⟩,
   ⟨Player.O, [0, 3, 4, 5, 8]⟩,
   ⟨Player.O, [2, 5, 4, 3, 6]⟩,
   ⟨Player.X, [4, 0, 1, 2, 7]⟩,
   ⟨Player.X, [4, 2, 7, 6, 1]⟩,
   ⟨Player.X, [0, 1, 2, 5, 4, 3, 8]⟩,
   ⟨Player.X, [0, 4, 3, 5, 6]⟩,
   ⟨Player.X, [2, 4, 1, 7, 0]⟩,
   ⟨Player.X, [8, 4, 0, 2, 1, 6]⟩,
   ⟨Player.X, [4, 8, 6, 7, 2]⟩,
   ⟨Player.O, [4, 0, 6, 3, 2]⟩,
   ⟨Player.O, [4, 8, 2, 5, 6]⟩,
   ⟨Player.O, [1, 4, 0, 8, 2]⟩,
   ⟨Player.O, [3, 4, 0, 8, 6]⟩,
   ⟨Player.O, [0, 2, 1, 3, 4, 5, 6, 7, 8]⟩,
   ⟨Player.O, [8, 7, 6, 5, 4, 3, 2, 1, 0]⟩]

/-- Models `moveHistory.every((move, index) => move === seq.moves[index])` of
`getTrainedAIMove`: for every index below the history's length, the corpus
entry's move at that index equals the history's move there (a read past the
end of `seq.moves` gives `undefined`, never equal to a number). -/
def isPrefixMatch (moveHistory : List Nat) (seq : GameSeq) : Bool :=
  (List.range moveHistory.length).all fun i =>
    seq.moves[i]? == moveHistory[i]?

/-- The training-example retrieval of `getTrainedAIMove`
(geminiService.ts lines 82–87): filter the corpus to entries the current
history prefixes, then `.slice(0, 3)`. (The subsequent `.map` to prompt
strings only feeds the prompt and is not embedded.) -/
def relevantExamples (moveHistory : List Nat) : List GameSeq :=
  ((winningGameSequences.filter fun seq => isPrefixMatch moveHistory seq).take 3)

/-- The `getTrainedAIMove` selector of geminiService.ts: identical
validation and fallback to `getHardAIMove`; `relevantExamples` only feeds the
prompt. -/
def getTrainedAIMove (board : Board) (moveHistory : List Nat)
    (res : OracleResult) (r : Nat) : Nat :=
  let _ := relevantExamples moveHistory
  match res with
  | OracleResult.ok move =>
      if 0 ≤ move ∧ move ≤ 8 ∧ board.getD move.toNat none = none then
        move.toNat
      else
        getMediumAIMove board r
  | OracleResult.notNumber => getMediumAIMove board r
  | OracleResult.err => getMediumAIMove board r

/-- Outcome of the remote commentary call: the response text, or a raised
error anywhere in the `try` block. -/
inductive CommentaryResult
  | ok (text : String)
  | err
deriving DecidableEq, Repr

/-- The `getAICommentary` function of geminiService.ts: on success
`response.text.replace(/"/g, '')` — every double-quote character is removed —
and on any caught error the fixed string `"Thinking..."`. -/
def getAICommentary (board : Board) (aiMoveIndex : Nat)
    (res : CommentaryResult) : String :=
  let _ := (board, aiMoveIndex)
  match res with
  | CommentaryResult.ok text => String.mk (text.data.filter fun c => c ≠ '\x22')
  | CommentaryResult.err => "Thinking..."

/-- Difficulty tiers from types.ts. -/
inductive Difficulty
  | Easy
  | Medium
  | Hard
  | Trained
deriving DecidableEq, Repr

/-- Non-deterministic inputs consumed by one `aiMove` invocation: the random
draw, the move-oracle outcome (Hard/Trained) and the commentary-call
outcome. -/
structure AIChoice where
  r : Nat
  oracle : OracleResult
  commentary : CommentaryResult
deriving DecidableEq, Repr

/-- The `aiMove` callback of App.tsx, invoked by the effect with the current
board and move history: set the thinking flag and placeholder commentary;
return early if no cell is available; pick `move` by difficulty; if the
chosen cell is null, place an O, set the commentary (from the remote call for
Hard/Trained, cleared otherwise), append the move to the history, evaluate
the new board and yield the turn; finally clear the thinking flag. -/
def aiMove (difficulty : Difficulty) (ch : AIChoice) (s : GameState) : GameState :=
  let s0 := { s with isAiThinking := true, aiCommentary := "Hmm, let me think..." }
  let avail := availableCells s.board
  if avail.isEmpty then
    { s0 with isAiThinking := false }
  else
    let move : Nat :=
      match difficulty with
      | Difficulty.Easy => avail.getD (ch.r % avail.length) 0
      | Difficulty.Medium => getMediumAIMove s.board ch.r
      | Difficulty.Hard => getHardAIMove s.board s.moveHistory ch.oracle ch.r
      | Difficulty.Trained => getTrainedAIMove s.board s.moveHistory ch.oracle ch.r
    if s.board.getD move none = none then
      let newBoard := s.board.set move (some Player.O)
      let s1 :=
        { s0 with
          aiCommentary :=
            if difficulty = Difficulty.Hard ∨ difficulty = Difficulty.Trained then
              getAICommentary newBoard move ch.commentary
            else
              "",
          board := newBoard,
          moveHistory := s0.moveHistory ++ [move],
          isPlayerTurn := true }
      { checkGameStatus newBoard s1 with isAiThinking := false }
    else
      { s0 with isAiThinking := false }

/-- The initial `useState` values of the `App` component. -/
def initialState : GameState :=
  { board := List.replicate 9 none,
    isPlayerTurn := true,
    winnerInfo := none,
    isDraw := false,
    scores := ⟨0, 0, 0⟩,
    gamesPlayed := 0,
    aiCommentary := "",
    isAiThinking := false,
    moveHistory := [] }

/-- One orchestrator transition: a click on one of the 9 rendered cells, the
AI-move effect (which fires exactly when `!isPlayerTurn && !winnerInfo &&
!isDraw`), or a restart. -/
inductive Step : GameState → GameState → Prop
  | click (s : GameState) (i : Nat) (h : i < 9) : Step s (handleCellClick i s)
  | ai (s : GameState) (d : Difficulty) (ch : AIChoice)
      (hTurn : s.isPlayerTurn = false) (hWin : s.winnerInfo = none)
      (hDraw : s.isDraw = false) : Step s (aiMove d ch s)
  | restart (s : GameState) : Step s (restartGame s)

/-- States reachable from the initial state by orchestrator transitions. -/
inductive Reachable : GameState → Prop
  | init : Reachable initialState
  | step {s s' : GameState} : Reachable s → Step s s' → Reachable s'

/-- Cell `i` is an empty cell at which placing `player` makes `checkWinner`
report a win for `player` — the condition `findWinningMove` scans for. -/
def completesWin (board : Board) (player : Player) (i : Nat) : Prop :=
  i < 9 ∧ board.getD i none = none ∧
    ∃ line, checkWinner (board.set i (some player)) = some (player, line)

/-- The three cells of `combo` all hold mark `M`: a completed winning line. -/
def wonBy (board : Board) (combo : Nat × Nat × Nat) (M : Player) : Prop :=
  board.getD combo.1 none = some M ∧ board.getD combo.2.1 none = some M ∧
    board.getD combo.2.2 none = some M

instance (b : Board) (c : Nat × Nat × Nat) (M : Player) :
    Decidable (wonBy b c M) := by
  unfold wonBy
  infer_instance

/-- Inductive invariant of the orchestrator: the board keeps its 9 cells, the
move history counts exactly the occupied cells, its entries are distinct cell
indices, the cell of the history entry at position `i` holds X for even `i`
and O for odd `i`, and the turn flag tracks the parity of the history. -/
def Inv (s : GameState) : Prop :=
  s.board.length = 9 ∧
  s.moveHistory.length = s.board.countP (fun c => c ≠ none) ∧
  (∀ m ∈ s.moveHistory, m < 9) ∧
  s.moveHistory.Nodup ∧
  (∀ i m, s.moveHistory[i]? = some m →
    s.board.getD m none = some (if i % 2 = 0 then Player.X else Player.O)) ∧
  (s.isPlayerTurn = true ↔ s.moveHistory.length % 2 = 0)

/-! ## Helper lemmas -/

theorem getD_set_self {α : Type} {l : List α} {i : Nat} (h : i < l.length)
    (a d : α) : (l.set i a).getD i d = a := by
  rw [List.getD_eq_getElem?_getD, List.getElem?_set_self h]
  rfl

theorem getD_set_ne {α : Type} {l : List α} {i j : Nat} (h : i ≠ j)
    (a d : α) : (l.set i a).getD j d = l.getD j d := by
  rw [List.getD_eq_getElem?_getD, List.getElem?_set_ne h,
    ← List.getD_eq_getElem?_getD]

theorem getD_replicate_none {n j : Nat} :
    (List.replicate n (none : Cell)).getD j none = none := by
  rw [List.getD_eq_getElem?_getD, List.getElem?_replicate]
  split <;> rfl

theorem mem_availableCells {b : Board} {i : Nat} :
    i ∈ availableCells b ↔ i < b.length ∧ b.getD i none = none := by
  simp [availableCells, List.mem_filter, List.mem_range]

theorem getD_mod_mem {l : List Nat} (h : l ≠ []) (r : Nat) :
    l.getD (r % l.length) 0 ∈ l := by
  have hlen : 0 < l.length := List.length_pos.mpr h
  have hlt : r % l.length < l.length := Nat.mod_lt _ hlen
  rw [List.getD_eq_getElem?_getD, List.getElem?_eq_getElem hlt]
  exact List.getElem_mem _

theorem findSome?_range_first {β : Type} {n : Nat} {f : Nat → Option β} {b : β}
    (h : (List.range n).findSome? f = some b) :
    ∃ m, m < n ∧ f m = some b ∧ ∀ k, k < m → f k = none := by
  induction n with
  | zero => simp [List.findSome?] at h
  | succ n ih =>
      rw [List.range_succ, List.findSome?_append] at h
      cases hn : (List.range n).findSome? f with
      | some b' =>
          rw [hn] at h
          simp only [Option.or, Option.some.injEq] at h
          subst h
          obtain ⟨m, hm, hfm, hfirst⟩ := ih hn
          exact ⟨m, Nat.lt_succ_of_lt hm, hfm, hfirst⟩
      | none =>
          rw [hn, Option.none_or] at h
          cases hfn : f n with
          | none => simp [List.findSome?, hfn] at h
          | some b' =>
              simp only [List.findSome?, hfn] at h
              refine ⟨n, Nat.lt_succ_self n, by rw [hfn, h], fun k hk => ?_⟩
              exact (List.findSome?_eq_none_iff.mp hn) k (List.mem_range.mpr hk)

theorem tryWinningMove_eq_some_iff {board : Board} {player : Player}
    {i x : Nat} :
    tryWinningMove board player i = some x ↔
      x = i ∧ board.getD i none = none ∧
        ∃ line, checkWinner (board.set i (some player)) = some (player, line) := by
  simp only [tryWinningMove]
  constructor
  · intro h
    split at h
    · split at h
      next w line hcw =>
        split at h
        next hw =>
          cases h
          exact ⟨rfl, by assumption, line, by rw [hcw, hw]⟩
        next => cases h
      next => cases h
    · cases h
  · rintro ⟨rfl, hemp, line, hcw⟩
    rw [if_pos hemp]
    have hred :
        (match checkWinner (board.set x (some player)) with
          | some (w, _) => if w = player then some x else none
          | none => (none : Option Nat)) = some x := by
      rw [hcw]
      simp
    exact hred

theorem findWinningMove_eq_some {board : Board} {player : Player} {m : Nat}
    (h : findWinningMove board player = some m) :
    completesWin board player m ∧ ∀ k, completesWin board player k → m ≤ k := by
  unfold findWinningMove at h
  obtain ⟨m', hm', hfm, hfirst⟩ := findSome?_range_first h
  obtain ⟨heq, hemp, line, hcw⟩ := tryWinningMove_eq_some_iff.mp hfm
  subst heq
  refine ⟨⟨hm', hemp, line, hcw⟩, ?_⟩
  intro k hk
  by_contra hlt
  push_neg at hlt
  have h1 := hfirst k hlt
  have h2 : tryWinningMove board player k = some k :=
    tryWinningMove_eq_some_iff.mpr ⟨rfl, hk.2.1, hk.2.2⟩
  rw [h1] at h2
  cases h2

theorem findWinningMove_eq_none {board : Board} {player : Player}
    (h : findWinningMove board player = none) :
    ∀ k, ¬ completesWin board player k := by
  intro k hk
  have h1 := List.findSome?_eq_none_iff.mp h k (List.mem_range.mpr hk.1)
  have h2 : tryWinningMove board player k = some k :=
    tryWinningMove_eq_some_iff.mpr ⟨rfl, hk.2.1, hk.2.2⟩
  rw [h1] at h2
  cases h2

theorem lineWinner_eq_some_iff {board : Board} {combo c : Nat × Nat × Nat}
    {w : Player} :
    lineWinner board combo = some (w, c) ↔ c = combo ∧ wonBy board combo w := by
  unfold lineWinner wonBy
  cases hb : board.getD combo.1 none with
  | none => simp
  | some w' =>
      dsimp only
      constructor
      · intro h
        split at h
        next hcond =>
          obtain ⟨hw, hc⟩ : w' = w ∧ combo = c := by simpa using h
          subst hw
          subst hc
          exact ⟨rfl, rfl, hcond.1, hcond.2⟩
        next => cases h
      · rintro ⟨rfl, hw, h2, h3⟩
        injection hw with hww
        subst hww
        rw [if_pos ⟨h2, h3⟩]

theorem checkWinner_wins {board : Board} {M : Player} {combo : Nat × Nat × Nat}
    (hmem : combo ∈ WINNING_COMBINATIONS) (hwon : wonBy board combo M)
    (huniq : ∀ c ∈ WINNING_COMBINATIONS, ∀ M', wonBy board c M' → M' = M) :
    ∃ line, line ∈ WINNING_COMBINATIONS ∧ wonBy board line M ∧
      checkWinner board = some (M, line) := by
  cases hcw : checkWinner board with
  | none =>
      unfold checkWinner at hcw
      have h1 := List.findSome?_eq_none_iff.mp hcw combo hmem
      have h2 : lineWinner board combo = some (M, combo) :=
        lineWinner_eq_some_iff.mpr ⟨rfl, hwon⟩
      rw [h1] at h2
      cases h2
  | some pr =>
      obtain ⟨w, c⟩ := pr
      have hcw2 := hcw
      unfold checkWinner at hcw2
      obtain ⟨cc, hccmem, hlw⟩ := List.exists_of_findSome?_eq_some hcw2
      obtain ⟨hceq, hwon2⟩ := lineWinner_eq_some_iff.mp hlw
      subst hceq
      have hM := huniq c hccmem w hwon2
      subst hM
      exact ⟨c, hccmem, hwon2, rfl⟩

theorem checkGameStatus_of_winner {board : Board} {s : GameState} {w : Player}
    {line : Nat × Nat × Nat} (h : checkWinner board = some (w, line)) :
    (checkGameStatus board s).winnerInfo = some (w, line) ∧
      (checkGameStatus board s).isDraw = s.isDraw := by
  unfold checkWinner at h
  unfold checkGameStatus
  rw [h]
  dsimp only
  exact ⟨rfl, rfl⟩

theorem checkGameStatus_of_no_winner_full {board : Board} {s : GameState}
    (h : checkWinner board = none)
    (hfull : board.all (fun cell => cell ≠ none) = true) :
    (checkGameStatus board s).isDraw = true ∧
      (checkGameStatus board s).winnerInfo = s.winnerInfo := by
  unfold checkWinner at h
  unfold checkGameStatus
  rw [h]
  dsimp only
  rw [hfull]
  simp

theorem checkGameStatus_of_no_winner_notfull {board : Board} {s : GameState}
    (h : checkWinner board = none)
    (hfull : board.all (fun cell => cell ≠ none) = false) :
    checkGameStatus board s = s := by
  unfold checkWinner at h
  unfold checkGameStatus
  rw [h]
  dsimp only
  rw [hfull]
  simp

theorem checkGameStatus_frame (board : Board) (s : GameState) :
    (checkGameStatus board s).board = s.board ∧
      (checkGameStatus board s).moveHistory = s.moveHistory ∧
      (checkGameStatus board s).isPlayerTurn = s.isPlayerTurn ∧
      (checkGameStatus board s).isAiThinking = s.isAiThinking := by
  unfold checkGameStatus
  cases hcw : WINNING_COMBINATIONS.findSome? (lineWinner board) with
  | none =>
      dsimp only
      cases hall : board.all (fun cell => cell ≠ none) <;> simp
  | some pr =>
      obtain ⟨w, c⟩ := pr
      exact ⟨rfl, rfl, rfl, rfl⟩

theorem mem_corners_lt : ∀ x ∈ ([0, 2, 6, 8] : List Nat), x < 9 := by decide

theorem mem_sides_lt : ∀ x ∈ ([1, 3, 5, 7] : List Nat), x < 9 := by decide

theorem getMediumAIMove_valid (board : Board) (r : Nat)
    (hlen : board.length = 9)
    (hex : ∃ i, i < 9 ∧ board.getD i none = none) :
    getMediumAIMove board r < 9 ∧
      board.getD (getMediumAIMove board r) none = none := by
  simp only [getMediumAIMove]
  cases hO : findWinningMove board Player.O with
  | some m =>
      obtain ⟨⟨hm9, hemp, _⟩, _⟩ := findWinningMove_eq_some hO
      exact ⟨hm9, hemp⟩
  | none =>
  cases hX : findWinningMove board Player.X with
  | some m =>
      obtain ⟨⟨hm9, hemp, _⟩, _⟩ := findWinningMove_eq_some hX
      exact ⟨hm9, hemp⟩
  | none =>
  by_cases h4 : board.getD 4 none = none
  · rw [if_pos h4]
    exact ⟨by norm_num, h4⟩
  · rw [if_neg h4]
    by_cases hc : ([0, 2, 6, 8].filter fun i => board.getD i none = none).length > 0
    · rw [if_pos hc]
      have hne : ([0, 2, 6, 8].filter fun i => board.getD i none = none) ≠ [] :=
        List.length_pos.mp hc
      have hmem := getD_mod_mem hne r
      obtain ⟨hmemL, hpred⟩ := List.mem_filter.mp hmem
      exact ⟨mem_corners_lt _ hmemL, of_decide_eq_true hpred⟩
    · rw [if_neg hc]
      by_cases hs : ([1, 3, 5, 7].filter fun i => board.getD i none = none).length > 0
      · rw [if_pos hs]
        have hne : ([1, 3, 5, 7].filter fun i => board.getD i none = none) ≠ [] :=
          List.length_pos.mp hs
        have hmem := getD_mod_mem hne r
        obtain ⟨hmemL, hpred⟩ := List.mem_filter.mp hmem
        exact ⟨mem_sides_lt _ hmemL, of_decide_eq_true hpred⟩
      · rw [if_neg hs]
        obtain ⟨i, hi9, hempi⟩ := hex
        have hiav : i ∈ availableCells board :=
          mem_availableCells.mpr ⟨hlen ▸ hi9, hempi⟩
        have hne : availableCells board ≠ [] := fun hemp => by
          rw [hemp] at hiav; cases hiav
        have hmem : (availableCells board).getD 0 0 ∈ availableCells board := by
          have := getD_mod_mem hne 0
          rwa [Nat.zero_mod] at this
        obtain ⟨hlt, hempm⟩ := mem_availableCells.mp hmem
        exact ⟨hlen ▸ hlt, hempm⟩

theorem getHardAIMove_valid (board : Board) (hist : List Nat)
    (res : OracleResult) (r : Nat) (hlen : board.length = 9)
    (hex : ∃ i, i < 9 ∧ board.getD i none = none) :
    getHardAIMove board hist res r < 9 ∧
      board.getD (getHardAIMove board hist res r) none = none := by
  cases res with
  | ok move =>
      simp only [getHardAIMove]
      by_cases hv : 0 ≤ move ∧ move ≤ 8 ∧ board.getD move.toNat none = none
      · rw [if_pos hv]
        exact ⟨by omega, hv.2.2⟩
      · rw [if_neg hv]
        exact getMediumAIMove_valid board r hlen hex
  | notNumber => exact getMediumAIMove_valid board r hlen hex
  | err => exact getMediumAIMove_valid board r hlen hex

theorem getTrainedAIMove_valid (board : Board) (hist : List Nat)
    (res : OracleResult) (r : Nat) (hlen : board.length = 9)
    (hex : ∃ i, i < 9 ∧ board.getD i none = none) :
    getTrainedAIMove board hist res r < 9 ∧
      board.getD (getTrainedAIMove board hist res r) none = none := by
  cases res with
  | ok move =>
      simp only [getTrainedAIMove]
      by_cases hv : 0 ≤ move ∧ move ≤ 8 ∧ board.getD move.toNat none = none
      · rw [if_pos hv]
        exact ⟨by omega, hv.2.2⟩
      · rw [if_neg hv]
        exact getMediumAIMove_valid board r hlen hex
  | notNumber => exact getMediumAIMove_valid board r hlen hex
  | err => exact getMediumAIMove_valid board r hlen hex

theorem getD_some_lt {b : Board} {i : Nat} {p : Player}
    (h : b.getD i none = some p) : i < b.length := by
  by_contra hge
  push_neg at hge
  rw [List.getD_eq_getElem?_getD, List.getElem?_eq_none hge] at h
  cases h

theorem getElem_of_getD_none {b : Board} {i : Nat} (hi : i < b.length)
    (h : b.getD i none = none) : b[i] = none := by
  rw [List.getD_eq_getElem?_getD, List.getElem?_eq_getElem hi] at h
  exact h

theorem countP_set_filled {b : Board} {mv : Nat} (hmv : mv < b.length)
    (hempty : b.getD mv none = none) (p : Player) :
    (b.set mv (some p)).countP (fun c => c ≠ none) =
      b.countP (fun c => c ≠ none) + 1 := by
  rw [List.countP_set _ _ _ _ hmv, getElem_of_getD_none hmv hempty]
  simp

theorem inv_core {b : Board} {hist : List Nat} (hlen : b.length = 9)
    (hcount : hist.length = b.countP (fun c => c ≠ none))
    (hnd : hist.Nodup)
    (hmarks : ∀ i m, hist[i]? = some m →
      b.getD m none = some (if i % 2 = 0 then Player.X else Player.O))
    {mv : Nat} (hmv : mv < 9) (hempty : b.getD mv none = none)
    {p : Player}
    (hp : p = if hist.length % 2 = 0 then Player.X else Player.O) :
    (b.set mv (some p)).length = 9 ∧
    (hist ++ [mv]).length = (b.set mv (some p)).countP (fun c => c ≠ none) ∧
    (hist ++ [mv]).Nodup ∧
    (∀ i m, (hist ++ [mv])[i]? = some m →
      (b.set mv (some p)).getD m none =
        some (if i % 2 = 0 then Player.X else Player.O)) := by
  have hmv_len : mv < b.length := hlen ▸ hmv
  have hcell_marked : ∀ m ∈ hist, b.getD m none ≠ none := by
    intro m hm hcon
    obtain ⟨n, hget⟩ := List.mem_iff_getElem?.mp hm
    have hmk := hmarks n m hget
    rw [hcon] at hmk
    cases hmk
  have hmv_not_mem : mv ∉ hist := fun hm => hcell_marked mv hm hempty
  refine ⟨by rw [List.length_set]; exact hlen, ?_, ?_, ?_⟩
  · rw [List.length_append, countP_set_filled hmv_len hempty, ← hcount]
    rfl
  · simp [List.nodup_append, hnd, hmv_not_mem]
  · intro i m hget
    rw [List.getElem?_append] at hget
    split at hget
    next hi =>
      have hmk := hmarks i m hget
      have hmem : m ∈ hist := List.mem_iff_getElem?.mpr ⟨i, hget⟩
      have hne : mv ≠ m := by
        intro hcon
        exact hmv_not_mem (hcon ▸ hmem)
      rw [getD_set_ne hne]
      exact hmk
    next hi =>
      have hd : i - hist.length = 0 ∧ mv = m := by
        cases hd0 : i - hist.length with
        | zero =>
            rw [hd0] at hget
            simp at hget
            exact ⟨rfl, hget⟩
        | succ k =>
            rw [hd0] at hget
            simp at hget
      obtain ⟨hd0, rfl⟩ := hd
      have hieq : i = hist.length := by omega
      rw [getD_set_self hmv_len, hp, hieq]

theorem checkGameStatus_board (board : Board) (s : GameState) :
    (checkGameStatus board s).board = s.board :=
  (checkGameStatus_frame board s).1

theorem checkGameStatus_moveHistory (board : Board) (s : GameState) :
    (checkGameStatus board s).moveHistory = s.moveHistory :=
  (checkGameStatus_frame board s).2.1

theorem checkGameStatus_isPlayerTurn (board : Board) (s : GameState) :
    (checkGameStatus board s).isPlayerTurn = s.isPlayerTurn :=
  (checkGameStatus_frame board s).2.2.1

theorem inv_via_frame {b : Board} {s : GameState} (h : Inv s) :
    Inv (checkGameStatus b s) := by
  unfold Inv at h ⊢
  simp only [checkGameStatus_board, checkGameStatus_moveHistory,
    checkGameStatus_isPlayerTurn]
  exact h

theorem inv_set_thinking {s : GameState} (h : Inv s) (b : Bool) :
    Inv { s with isAiThinking := b } := h

theorem countP_replicate_none_nine :
    List.countP (fun c => decide (c ≠ none))
      (List.replicate 9 (none : Cell)) = 0 := by
  decide

theorem inv_restart (s : GameState) : Inv (restartGame s) := by
  unfold Inv restartGame
  refine ⟨by simp, countP_replicate_none_nine.symm, by simp, by simp, ?_,
    by simp⟩
  intro i m h
  simp at h

theorem inv_init : Inv initialState := by
  unfold Inv initialState
  refine ⟨by decide, by decide, by simp, by decide, ?_, by decide⟩
  intro i m h
  simp at h

theorem inv_click {s : GameState} (hInv : Inv s) {i : Nat} (hi : i < 9) :
    Inv (handleCellClick i s) := by
  obtain ⟨hlen, hcount, hlt, hnd, hmarks, hturn⟩ := hInv
  unfold handleCellClick
  split
  next hguard => exact ⟨hlen, hcount, hlt, hnd, hmarks, hturn⟩
  next hguard =>
    push_neg at hguard
    obtain ⟨hempty, hwin, hdraw, hpt⟩ := hguard
    have hpt2 : s.isPlayerTurn = true := by
      cases hb : s.isPlayerTurn
      · exact absurd hb hpt
      · rfl
    have heven : s.moveHistory.length % 2 = 0 := hturn.mp hpt2
    obtain ⟨c1, c2, c3, c4⟩ :=
      inv_core hlen hcount hnd hmarks hi hempty
        (p := Player.X) (by rw [if_pos heven])
    apply inv_via_frame
    refine ⟨c1, c2, ?_, c3, c4, ?_⟩
    · intro m hm
      rcases List.mem_append.mp hm with hm2 | hm2
      · exact hlt m hm2
      · rw [List.mem_singleton] at hm2
        exact hm2 ▸ hi
    · simp only [List.length_append, List.length_singleton]
      constructor
      · intro hcon
        cases hcon
      · intro hcon
        omega

theorem inv_ai {s : GameState} (hInv : Inv s) (hTurn : s.isPlayerTurn = false)
    (d : Difficulty) (ch : AIChoice) : Inv (aiMove d ch s) := by
  obtain ⟨hlen, hcount, hlt, hnd, hmarks, hturn⟩ := hInv
  have hodd : s.moveHistory.length % 2 ≠ 0 := by
    intro hcon
    rw [hturn.mpr hcon] at hTurn
    cases hTurn
  unfold aiMove
  dsimp only
  split
  next hemptyAvail => exact ⟨hlen, hcount, hlt, hnd, hmarks, hturn⟩
  next hnotEmpty =>
    have hne : availableCells s.board ≠ [] := by
      intro hcon
      rw [hcon] at hnotEmpty
      exact hnotEmpty rfl
    have hex : ∃ j, j < 9 ∧ s.board.getD j none = none := by
      have hmem : (availableCells s.board).getD 0 0 ∈ availableCells s.board := by
        have := getD_mod_mem hne 0
        rwa [Nat.zero_mod] at this
      obtain ⟨hltl, hemp⟩ := mem_availableCells.mp hmem
      exact ⟨_, hlen ▸ hltl, hemp⟩
    have hmove9 :
        (match d with
          | Difficulty.Easy =>
              (availableCells s.board).getD
                (ch.r % (availableCells s.board).length) 0
          | Difficulty.Medium => getMediumAIMove s.board ch.r
          | Difficulty.Hard =>
              getHardAIMove s.board s.moveHistory ch.oracle ch.r
          | Difficulty.Trained =>
              getTrainedAIMove s.board s.moveHistory ch.oracle ch.r) < 9 := by
      cases d with
      | Easy =>
          have hmem := getD_mod_mem hne ch.r
          exact hlen ▸ (mem_availableCells.mp hmem).1
      | Medium => exact (getMediumAIMove_valid s.board ch.r hlen hex).1
      | Hard =>
          exact (getHardAIMove_valid s.board s.moveHistory ch.oracle ch.r
            hlen hex).1
      | Trained =>
          exact (getTrainedAIMove_valid s.board s.moveHistory ch.oracle ch.r
            hlen hex).1
    split
    next hmovEmpty =>
      obtain ⟨c1, c2, c3, c4⟩ :=
        inv_core hlen hcount hnd hmarks hmove9 hmovEmpty
          (p := Player.O) (by rw [if_neg hodd])
      apply inv_set_thinking
      apply inv_via_frame
      refine ⟨c1, c2, ?_, c3, c4, ?_⟩
      · intro m hm
        rcases List.mem_append.mp hm with hm2 | hm2
        · exact hlt m hm2
        · rw [List.mem_singleton] at hm2
          exact hm2 ▸ hmove9
      · simp only [List.length_append, List.length_singleton]
        constructor
        · intro _
          omega
        · intro _
          trivial
    next hmovOcc => exact ⟨hlen, hcount, hlt, hnd, hmarks, hturn⟩

theorem reachable_inv {s : GameState} (h : Reachable s) : Inv s := by
  induction h with
  | init => exact inv_init
  | step hr hstep ih =>
      cases hstep with
      | click i h9 => exact inv_click ih h9
      | ai d ch hTurn hWin hDraw => exact inv_ai ih hTurn d ch
      | restart => exact inv_restart _

theorem isPrefixMatch_iff {hist : List Nat} {seq : GameSeq} :
    isPrefixMatch hist seq = true ↔
      ∀ i, i < hist.length → seq.moves[i]? = hist[i]? := by
  unfold isPrefixMatch
  rw [List.all_eq_true]
  constructor
  · intro h i hi
    exact beq_iff_eq.mp (h i (List.mem_range.mpr hi))
  · intro h i hi
    exact beq_iff_eq.mpr (h i (List.mem_range.mp hi))

/-! ## Claim theorems -/

/-- C1: for every board and every outcome of the external reasoning call, the
Hard and Trained selectors either return the validated move — an integer in
[0,8] whose board cell is empty — or, on any discard (non-number field,
out-of-range value, occupied target cell) or any raised error, return exactly
the result of the heuristic selector on the same board; both are total
functions, so no error propagates. -/
theorem remoteSelectorValidatesOrFallsBack (board : Board) (hist : List Nat)
    (res : OracleResult) (r : Nat) :
    (∃ m : Int, res = OracleResult.ok m ∧ 0 ≤ m ∧ m ≤ 8 ∧
        board.getD m.toNat none = none ∧
        getHardAIMove board hist res r = m.toNat ∧
        getTrainedAIMove board hist res r = m.toNat) ∨
    (getHardAIMove board hist res r = getMediumAIMove board r ∧
      getTrainedAIMove board hist res r = getMediumAIMove board r) := by
  cases res with
  | ok m =>
      by_cases hv : 0 ≤ m ∧ m ≤ 8 ∧ board.getD m.toNat none = none
      · left
        exact ⟨m, rfl, hv.1, hv.2.1, hv.2.2,
          by simp only [getHardAIMove, if_pos hv],
          by simp only [getTrainedAIMove, if_pos hv]⟩
      · right
        exact ⟨by simp only [getHardAIMove, if_neg hv],
          by simp only [getTrainedAIMove, if_neg hv]⟩
  | notNumber => exact Or.inr ⟨rfl, rfl⟩
  | err => exact Or.inr ⟨rfl, rfl⟩

/-- C2: on every 9-cell board with at least one empty cell, the heuristic
(Medium) selector returns an index in [0,8] whose cell is empty, for every
random draw — the priority chain cannot fall through. -/
theorem mediumSelectorReturnsEmptyCell (board : Board) (r : Nat)
    (hlen : board.length = 9)
    (hex : ∃ i, i < 9 ∧ board.getD i none = none) :
    getMediumAIMove board r < 9 ∧
      board.getD (getMediumAIMove board r) none = none :=
  getMediumAIMove_valid board r hlen hex

theorem mediumSelectorReturnsEmptyCell_witness :
    getMediumAIMove (List.replicate 9 none) 0 < 9 ∧
      (List.replicate 9 (none : Cell)).getD
        (getMediumAIMove (List.replicate 9 none) 0) none = none :=
  mediumSelectorReturnsEmptyCell (List.replicate 9 none) 0 (by decide)
    ⟨0, by decide, by decide⟩

/-- C3: the heuristic selector follows the priority chain in order: if some
empty cell completes a win for the AI mark O it plays the first such cell in
a 0..8 scan; otherwise, if some empty cell completes a win for the opponent
mark X it plays the first such cell in the same scan order; otherwise, if the
center cell 4 is empty it plays 4. -/
theorem mediumSelectorPriorityChain (board : Board) (r : Nat) :
    (∀ i, completesWin board Player.O i →
      completesWin board Player.O (getMediumAIMove board r) ∧
        getMediumAIMove board r ≤ i) ∧
    ((∀ i, ¬ completesWin board Player.O i) →
      ∀ j, completesWin board Player.X j →
        completesWin board Player.X (getMediumAIMove board r) ∧
          getMediumAIMove board r ≤ j) ∧
    ((∀ i, ¬ completesWin board Player.O i) →
      (∀ j, ¬ completesWin board Player.X j) →
      board.getD 4 none = none → getMediumAIMove board r = 4) := by
  refine ⟨?_, ?_, ?_⟩
  · intro i hi
    cases hO : findWinningMove board Player.O with
    | none => exact absurd hi (findWinningMove_eq_none hO i)
    | some m =>
        obtain ⟨hcm, hmin⟩ := findWinningMove_eq_some hO
        have hres : getMediumAIMove board r = m := by
          simp only [getMediumAIMove, hO]
        rw [hres]
        exact ⟨hcm, hmin i hi⟩
  · intro hnoO j hj
    have hO : findWinningMove board Player.O = none := by
      cases hO : findWinningMove board Player.O with
      | none => rfl
      | some m => exact absurd (findWinningMove_eq_some hO).1 (hnoO m)
    cases hX : findWinningMove board Player.X with
    | none => exact absurd hj (findWinningMove_eq_none hX j)
    | some m =>
        obtain ⟨hcm, hmin⟩ := findWinningMove_eq_some hX
        have hres : getMediumAIMove board r = m := by
          simp only [getMediumAIMove, hO, hX]
        rw [hres]
        exact ⟨hcm, hmin j hj⟩
  · intro hnoO hnoX h4
    have hO : findWinningMove board Player.O = none := by
      cases hO : findWinningMove board Player.O with
      | none => rfl
      | some m => exact absurd (findWinningMove_eq_some hO).1 (hnoO m)
    have hX : findWinningMove board Player.X = none := by
      cases hX : findWinningMove board Player.X with
      | none => rfl
      | some m => exact absurd (findWinningMove_eq_some hX).1 (hnoX m)
    simp only [getMediumAIMove, hO, hX, if_pos h4]

theorem mediumSelectorPriorityChain_witness :
    completesWin [some Player.O, some Player.O, none,
        some Player.X, some Player.X, none, none, none, none]
      Player.O
      (getMediumAIMove [some Player.O, some Player.O, none,
        some Player.X, some Player.X, none, none, none, none] 0) ∧
    getMediumAIMove [some Player.O, some Player.O, none,
        some Player.X, some Player.X, none, none, none, none] 0 ≤ 2 :=
  (mediumSelectorPriorityChain
      [some Player.O, some Player.O, none,
        some Player.X, some Player.X, none, none, none, none] 0).1 2
    ⟨by decide, by decide, (0, 1, 2), by decide⟩

/-- C4: on every board containing a completed winning line whose mark is the
only mark completing any line, both evaluators report a win for that mark
with a completed line of the fixed 8-triple table: `checkWinner` returns it,
`checkGameStatus` stores it in `winnerInfo`, and the draw flag is untouched —
a full board with a winning line is a win, never a draw. -/
theorem evaluatorReportsWin (board : Board) (M : Player)
    (combo : Nat × Nat × Nat) (s : GameState)
    (hmem : combo ∈ WINNING_COMBINATIONS) (hwon : wonBy board combo M)
    (huniq : ∀ c ∈ WINNING_COMBINATIONS, ∀ M2, wonBy board c M2 → M2 = M) :
    ∃ line, line ∈ WINNING_COMBINATIONS ∧ wonBy board line M ∧
      checkWinner board = some (M, line) ∧
      (checkGameStatus board s).winnerInfo = some (M, line) ∧
      (checkGameStatus board s).isDraw = s.isDraw := by
  obtain ⟨line, hlmem, hlwon, hcw⟩ := checkWinner_wins hmem hwon huniq
  obtain ⟨h1, h2⟩ := checkGameStatus_of_winner (s := s) hcw
  exact ⟨line, hlmem, hlwon, hcw, h1, h2⟩

theorem evaluatorReportsWin_witness :
    ∃ line, line ∈ WINNING_COMBINATIONS ∧
      wonBy [some Player.X, some Player.O, some Player.X,
          some Player.O, some Player.X, some Player.O,
          none, none, some Player.X] line Player.X ∧
      checkWinner [some Player.X, some Player.O, some Player.X,
          some Player.O, some Player.X, some Player.O,
          none, none, some Player.X] = some (Player.X, line) ∧
      (checkGameStatus [some Player.X, some Player.O, some Player.X,
          some Player.O, some Player.X, some Player.O,
          none, none, some Player.X] initialState).winnerInfo =
        some (Player.X, line) ∧
      (checkGameStatus [some Player.X, some Player.O, some Player.X,
          some Player.O, some Player.X, some Player.O,
          none, none, some Player.X] initialState).isDraw =
        initialState.isDraw :=
  evaluatorReportsWin
    [some Player.X, some Player.O, some Player.X,
      some Player.O, some Player.X, some Player.O,
      none, none, some Player.X]
    Player.X (0, 4, 8) initialState (by decide) (by decide) (by decide)

/-- C5: on every board with no completed winning line, the evaluator has no
side effect on the board, sets the draw flag exactly when all 9 cells are
non-empty (leaving `winnerInfo` untouched), and leaves the state entirely
unchanged (in progress) otherwise. -/
theorem evaluatorDrawOrInProgress (board : Board) (s : GameState)
    (hnl : ∀ c ∈ WINNING_COMBINATIONS, ∀ M, ¬ wonBy board c M) :
    (checkGameStatus board s).board = s.board ∧
    (board.all (fun cell => cell ≠ none) = true →
      (checkGameStatus board s).isDraw = true ∧
        (checkGameStatus board s).winnerInfo = s.winnerInfo) ∧
    (board.all (fun cell => cell ≠ none) = false →
      checkGameStatus board s = s) := by
  have hcw : checkWinner board = none := by
    cases hcw : checkWinner board with
    | none => rfl
    | some pr =>
        obtain ⟨w, c⟩ := pr
        unfold checkWinner at hcw
        obtain ⟨cc, hmem2, hlw⟩ := List.exists_of_findSome?_eq_some hcw
        obtain ⟨hceq, hwon2⟩ := lineWinner_eq_some_iff.mp hlw
        exact absurd hwon2 (hnl cc hmem2 w)
  exact ⟨checkGameStatus_board board s,
    fun hfull => checkGameStatus_of_no_winner_full hcw hfull,
    fun hnotfull => checkGameStatus_of_no_winner_notfull hcw hnotfull⟩

theorem evaluatorDrawOrInProgress_witness :
    (checkGameStatus [some Player.X, some Player.X, some Player.O,
        some Player.O, some Player.O, some Player.X,
        some Player.X, some Player.O, some Player.O]
      initialState).isDraw = true ∧
    (checkGameStatus [some Player.X, some Player.X, some Player.O,
        some Player.O, some Player.O, some Player.X,
        some Player.X, some Player.O, some Player.O]
      initialState).winnerInfo = initialState.winnerInfo :=
  (evaluatorDrawOrInProgress
    [some Player.X, some Player.X, some Player.O,
      some Player.O, some Player.O, some Player.X,
      some Player.X, some Player.O, some Player.O]
    initialState (by decide)).2.1 (by decide)

/-- C6: for every move history, the training-example retrieval of the Trained
selector returns at most 3 corpus entries, in corpus enumeration order (a
sublist of the corpus), every returned entry has the history as an exact
positional prefix, and when no corpus entry matches it returns the empty
list; the corpus itself is a fixed constant, never mutated. -/
theorem retrieverPrefixContract (hist : List Nat) :
    (relevantExamples hist).length ≤ 3 ∧
    List.Sublist (relevantExamples hist) winningGameSequences ∧
    (∀ e ∈ relevantExamples hist, ∀ i, i < hist.length →
      e.moves[i]? = hist[i]?) ∧
    ((∀ e ∈ winningGameSequences,
        ¬ ∀ i, i < hist.length → e.moves[i]? = hist[i]?) →
      relevantExamples hist = []) := by
  refine ⟨List.length_take_le _ _, ?_, ?_, ?_⟩
  · exact (List.take_sublist _ _).trans (List.filter_sublist _)
  · intro e he i hi
    have hemem := List.mem_of_mem_take he
    obtain ⟨_, hpred⟩ := List.mem_filter.mp hemem
    exact isPrefixMatch_iff.mp hpred i hi
  · intro hno
    have hfil :
        (winningGameSequences.filter fun seq => isPrefixMatch hist seq) = [] := by
      rw [List.filter_eq_nil_iff]
      intro e he hpred
      exact hno e he (isPrefixMatch_iff.mp hpred)
    unfold relevantExamples
    rw [hfil]
    rfl

theorem retrieverPrefixContract_witness :
    (relevantExamples [4, 0]).length ≤ 3 ∧
    List.Sublist (relevantExamples [4, 0]) winningGameSequences ∧
    (∀ e ∈ relevantExamples [4, 0], ∀ i, i < ([4, 0] : List Nat).length →
      e.moves[i]? = ([4, 0] : List Nat)[i]?) :=
  ⟨(retrieverPrefixContract [4, 0]).1, (retrieverPrefixContract [4, 0]).2.1,
    (retrieverPrefixContract [4, 0]).2.2.1⟩

/-- C7 counterexample: the claim says on success only the wrapping quote
characters are stripped and the rest of the text is unchanged, but the code
runs `replace(/"/g, '')`: on the response text `a"b`, which has no wrapping
quotes, the interior quote character is removed as well, so the output `ab`
differs from the text the claim prescribes. -/
theorem commentaryQuoteStripping_cex :
    getAICommentary [] 0 (CommentaryResult.ok "a\x22b") = "ab" ∧
      ("a\x22b" : String) ≠ "ab" := by
  constructor
  · rfl
  · decide

/-- C7 (amended): for every board, move index and call outcome the commentary
generator returns a string and never propagates an error; on success it
returns the response text with every double-quote character removed (the
other characters kept in order), and on any failure the fixed placeholder
"Thinking...". -/
theorem commentaryStripsAllQuotes (board : Board) (mv : Nat) (t : String) :
    (getAICommentary board mv (CommentaryResult.ok t)).data =
      t.data.filter (fun c => c ≠ '\x22') ∧
    (∀ c ∈ (getAICommentary board mv (CommentaryResult.ok t)).data,
      c ≠ '\x22') ∧
    getAICommentary board mv CommentaryResult.err = "Thinking..." := by
  refine ⟨rfl, ?_, rfl⟩
  intro c hc
  have := List.mem_filter.mp hc
  simpa using this.2

theorem commentaryStripsAllQuotes_witness :
    (getAICommentary [] 3 (CommentaryResult.ok "no quotes")).data =
      ("no quotes" : String).data.filter (fun c => c ≠ '\x22') ∧
    (∀ c ∈ (getAICommentary [] 3 (CommentaryResult.ok "no quotes")).data,
      c ≠ '\x22') ∧
    getAICommentary [] 3 CommentaryResult.err = "Thinking..." :=
  commentaryStripsAllQuotes [] 3 "no quotes"

/-- C8: an illegal human click — on an occupied cell, or when the game is
finished (won or drawn), or when it is not the human's turn (which includes
the whole time the AI is thinking, since the turn flag is false from the
human move until the AI move is applied) — leaves the entire game state
unchanged; `handleCellClick` is a total function, so no error is raised. -/
theorem illegalClickNoOp (s : GameState) (i : Nat)
    (h : s.board.getD i none ≠ none ∨ s.winnerInfo ≠ none ∨
      s.isDraw = true ∨ s.isPlayerTurn = false) :
    handleCellClick i s = s := by
  unfold handleCellClick
  rw [if_pos h]

theorem illegalClickNoOp_witness :
    handleCellClick 1 (handleCellClick 0 initialState) =
      handleCellClick 0 initialState :=
  illegalClickNoOp (handleCellClick 0 initialState) 1
    (Or.inr (Or.inr (Or.inr (by decide))))

/-- C9: a cell holding a mark is never overwritten or cleared by a move: the
human click handler and the AI move application preserve every occupied
cell (each writes only to a cell that is empty at the time of the write),
and only a restart returns the cells to empty. -/
theorem marksNeverOverwritten :
    (∀ (s : GameState) (i j : Nat) (p : Player),
      s.board.getD j none = some p →
        (handleCellClick i s).board.getD j none = some p) ∧
    (∀ (s : GameState) (d : Difficulty) (ch : AIChoice) (j : Nat) (p : Player),
      s.board.getD j none = some p →
        (aiMove d ch s).board.getD j none = some p) ∧
    (∀ (s : GameState) (j : Nat),
      (restartGame s).board.getD j none = none) := by
  refine ⟨?_, ?_, ?_⟩
  · intro s i j p hp
    unfold handleCellClick
    split
    · exact hp
    next hguard =>
      push_neg at hguard
      obtain ⟨hempty, _, _, _⟩ := hguard
      simp only [checkGameStatus_board]
      have hne : i ≠ j := by
        intro hcon
        rw [hcon, hp] at hempty
        cases hempty
      rw [getD_set_ne hne]
      exact hp
  · intro s d ch j p hp
    unfold aiMove
    dsimp only
    split
    · exact hp
    · generalize (match d with
        | Difficulty.Easy =>
            (availableCells s.board).getD
              (ch.r % (availableCells s.board).length) 0
        | Difficulty.Medium => getMediumAIMove s.board ch.r
        | Difficulty.Hard =>
            getHardAIMove s.board s.moveHistory ch.oracle ch.r
        | Difficulty.Trained =>
            getTrainedAIMove s.board s.moveHistory ch.oracle ch.r) = mv
      split
      next hmovE =>
        simp only [checkGameStatus_board]
        have hne : mv ≠ j := by
          intro hcon
          rw [hcon, hp] at hmovE
          cases hmovE
        rw [getD_set_ne hne]
        exact hp
      · exact hp
  · intro s j
    exact getD_replicate_none

theorem marksNeverOverwritten_witness :
    (handleCellClick 4 (handleCellClick 0 initialState)).board.getD 0 none =
      some Player.X :=
  marksNeverOverwritten.1 (handleCellClick 0 initialState) 4 0 Player.X
    (by decide)

/-- C10: in every reachable game state the move history length equals the
number of occupied board cells, its entries are pairwise distinct indices
below 9, the board cell named by the entry at an even position holds X and
at an odd position holds O (each applied move appends its cell index), and a
restart resets the history to empty together with the board. -/
theorem moveHistoryInvariant (s : GameState) (h : Reachable s) :
    (s.moveHistory.length = s.board.countP (fun c => c ≠ none) ∧
      s.moveHistory.Nodup ∧
      (∀ m ∈ s.moveHistory, m < 9) ∧
      (∀ i m, s.moveHistory[i]? = some m →
        s.board.getD m none =
          some (if i % 2 = 0 then Player.X else Player.O))) ∧
    ((restartGame s).moveHistory = [] ∧
      ∀ j, (restartGame s).board.getD j none = none) := by
  obtain ⟨h1, h2, h3, h4, h5, h6⟩ := reachable_inv h
  exact ⟨⟨h2, h4, h3, h5⟩, rfl, fun j => getD_replicate_none⟩

theorem moveHistoryInvariant_witness :
    (aiMove Difficulty.Medium ⟨0, OracleResult.err, CommentaryResult.err⟩
        (handleCellClick 0 initialState)).moveHistory.length =
      (aiMove Difficulty.Medium ⟨0, OracleResult.err, CommentaryResult.err⟩
        (handleCellClick 0 initialState)).board.countP (fun c => c ≠ none) ∧
    (aiMove Difficulty.Medium ⟨0, OracleResult.err, CommentaryResult.err⟩
        (handleCellClick 0 initialState)).moveHistory.Nodup := by
  have hreach : Reachable
      (aiMove Difficulty.Medium ⟨0, OracleResult.err, CommentaryResult.err⟩
        (handleCellClick 0 initialState)) :=
    Reachable.step
      (Reachable.step Reachable.init (Step.click initialState 0 (by decide)))
      (Step.ai (handleCellClick 0 initialState) Difficulty.Medium
        ⟨0, OracleResult.err, CommentaryResult.err⟩
        (by decide) (by decide) (by decide))
  exact ⟨(moveHistoryInvariant _ hreach).1.1,
    (moveHistoryInvariant _ hreach).1.2.1⟩

end TicTacToe
